import Mathlib

/-!
# Verification of the Untergang contract & payment lifecycle engine

Shallow embedding of the contract/payment engine of the Untergang backend
(`src/handler/mod.rs`, `src/db/mod.rs`, `src/client/mod.rs`).

Modelling conventions:
* Monetary amounts and percentages are rationals (`ℚ`).  The Rust code mixes
  `f64` and `BigDecimal`; the model uses exact arithmetic, and the rounding
  performed by IEEE-754 binary64 is modelled separately (`fl`) where a claim
  is about that rounding.
* Timestamps (`DateTime<Utc>` / `CURRENT_DATE`) are integers; only their
  ordering matters to the code.
* The database is an explicit record of lists of rows; each SQL statement of
  the source becomes a pure function on that record.  Rows carry exactly the
  columns the engine reads or writes; columns that are written by database
  defaults (`is_deleted = false` on inserted payments, `is_paid = false` on
  inserted contracts, serial ids) are modelled with those default values.
* HTTP handler results become a small result type carrying the exact message
  strings of the source.
-/

namespace Untergang

/-- `ClientId` from `src/client/mod.rs`: a discriminated natural key. -/
inductive ClientId where
  | individual (pesel : String)
  | company (krs : String)
deriving DecidableEq, Repr

/-- A row of the `contract` table, with the columns read and written by
`src/db/mod.rs` (`create_contract_in_db`, `get_contract_by_id`,
`handle_full_payment`). -/
structure Contract where
  id : Int
  price : ℚ
  productId : Int
  clientId : ClientId
  startDate : Int
  endDate : Int
  yearsSupported : Int
  isSigned : Bool
  isPaid : Bool
  isDeleted : Bool
deriving DecidableEq, Repr

/-- A row of the `payment` table (`create_payment_record_in_db` inserts
`contract_id` and `amount`; `is_deleted` takes the column default `false`;
the serial id and `payment_date` are never consulted by the engine and are
omitted). -/
structure Payment where
  contractId : Int
  amount : ℚ
  isDeleted : Bool
deriving DecidableEq, Repr

/-- A row of the `discount` table, with the columns consulted by
`find_discounts_for_client`. -/
structure Discount where
  productId : Int
  percentage : ℚ
  startDate : Int
  endDate : Int
  isDeleted : Bool
deriving DecidableEq, Repr

/-- A row of the `software` table, with the columns consulted by
`check_if_product_exists` and `get_price_for_product`. -/
structure Product where
  id : Int
  price : ℚ
deriving DecidableEq, Repr

/-- The database state: the tables touched by the engine.  `clients` holds
the identities of the non-deleted client rows (the only client fact the
engine consults is existence, `check_if_client_exists`).  `nextContractId`
models the serial primary key of the `contract` table. -/
structure Db where
  clients : List ClientId
  contracts : List Contract
  payments : List Payment
  discounts : List Discount
  products : List Product
  nextContractId : Int
deriving DecidableEq, Repr

/-- `check_if_client_exists` (db/mod.rs:31): `EXISTS(... WHERE pesel/krs = $1
AND is_deleted = FALSE)`. -/
def check_if_client_exists (db : Db) (clientId : ClientId) : Bool :=
  db.clients.contains clientId

/-- `check_if_product_exists` (db/mod.rs:19). -/
def check_if_product_exists (db : Db) (productId : Int) : Bool :=
  db.products.any (fun p => p.id == productId)

/-- `get_price_for_product` (db/mod.rs:136): `SELECT price FROM software
WHERE id = $1`, `RowNotFound` when absent. -/
def get_price_for_product (db : Db) (productId : Int) : Option ℚ :=
  (db.products.find? (fun p => p.id == productId)).map (fun p => p.price)

/-- `get_payments_for_contract` (db/mod.rs:303): `SELECT ... FROM payment
WHERE contract_id = $1` — note: the query does NOT filter on `is_deleted`. -/
def get_payments_for_contract (db : Db) (contractId : Int) : List Payment :=
  db.payments.filter (fun p => p.contractId == contractId)

/-- `payments::check_outstanding_payments` (db/mod.rs:334): despite its name
it returns the SUM of the amounts of the payment rows of the contract, not
`price − sum`. -/
def check_outstanding_payments (db : Db) (contractId : Int) : ℚ :=
  ((get_payments_for_contract db contractId).map (fun p => p.amount)).sum

/-- `get_contract_by_id` (db/mod.rs:221): `... WHERE id = $1 AND
personal_client_pesel/company_client_krs = $2 AND is_deleted = FALSE`,
`RowNotFound` when absent. -/
def get_contract_by_id (db : Db) (clientId : ClientId) (contractId : Int) :
    Option Contract :=
  db.contracts.find? (fun c =>
    c.id == contractId && c.clientId == clientId && !c.isDeleted)

/-- `payments::create_payment_record_in_db` (db/mod.rs:352): `INSERT INTO
payment (contract_id, amount) VALUES ($1, $2)`; `is_deleted` defaults to
`false`. -/
def create_payment_record_in_db (db : Db) (contractId : Int) (amount : ℚ) : Db :=
  { db with payments := db.payments ++ [⟨contractId, amount, false⟩] }

/-- `pay_for_contract` (db/mod.rs:288): delegates to
`create_payment_record_in_db`, ignoring the client id. -/
def pay_for_contract (db : Db) (contractId : Int) (_clientId : ClientId)
    (amount : ℚ) : Db :=
  create_payment_record_in_db db contractId amount

/-- `create_contract_in_db` (db/mod.rs:165): inserts a contract row with
`is_signed = false`, `is_deleted = false`; `is_paid` is not in the insert
list and takes the column default `false`; the serial id is modelled by
`nextContractId`. -/
def create_contract_in_db (db : Db) (price : ℚ) (productId : Int)
    (clientId : ClientId) (startDate endDate : Int) (yearsSupported : Int) : Db :=
  { db with
    contracts := db.contracts ++
      [⟨db.nextContractId, price, productId, clientId, startDate, endDate,
        yearsSupported, false, false, false⟩],
    nextContractId := db.nextContractId + 1 }

/-- `check_if_client_has_contract_for_product` (db/mod.rs:193). -/
def check_if_client_has_contract_for_product (db : Db) (clientId : ClientId)
    (productId : Int) : Bool :=
  db.contracts.any (fun c =>
    c.clientId == clientId && c.productId == productId && !c.isDeleted)

/-- `payments::handle_full_payment` (db/mod.rs:377): `UPDATE contract SET
is_paid = TRUE WHERE id = $1 AND personal_client_pesel/company_client_krs
= $2` (no `is_deleted` filter). -/
def handle_full_payment (db : Db) (contractId : Int) (clientId : ClientId) : Db :=
  { db with
    contracts := db.contracts.map (fun c =>
      if c.id == contractId && c.clientId == clientId then
        { c with isPaid := true }
      else c) }

/-- The maximum of a list of rationals, as an `Option` — the model of
`ORDER BY percentage DESC LIMIT 1` with `fetch_optional`. -/
def listMaxQ : List ℚ → Option ℚ
  | [] => none
  | x :: xs =>
    match listMaxQ xs with
    | none => some x
    | some m => some (max x m)

/-- First query of `find_discounts_for_client` (db/mod.rs:75): highest
`percentage` among discount rows with `discounted_products = $1 AND
is_deleted = FALSE AND start_date <= CURRENT_DATE AND end_date >
CURRENT_DATE`. -/
def highestActiveDiscount (db : Db) (productId : Int) (now : Int) : Option ℚ :=
  listMaxQ ((db.discounts.filter (fun d =>
    d.productId == productId && !d.isDeleted &&
      decide (d.startDate ≤ now) && decide (now < d.endDate))).map
    (fun d => d.percentage))

/-- Second query of `find_discounts_for_client` (db/mod.rs:86): `COUNT(*)`
of contract rows of the client with `is_deleted = FALSE AND start_date <=
CURRENT_DATE AND end_date > CURRENT_DATE`. -/
def countActiveContracts (db : Db) (clientId : ClientId) (now : Int) : Nat :=
  (db.contracts.filter (fun c =>
    c.clientId == clientId && !c.isDeleted &&
      decide (c.startDate ≤ now) && decide (now < c.endDate))).length

/-- `find_discounts_for_client` (db/mod.rs:70): base discount from
`highestActiveDiscount`; a recurring-client addition of `0.05` when the
count of active contracts is `>= 1`; the two are combined by the final
`match` of the source — with no clamping. -/
def find_discounts_for_client (db : Db) (productId : Int) (clientId : ClientId)
    (now : Int) : Option ℚ :=
  let highest := highestActiveDiscount db productId now
  let additional : Option ℚ :=
    if 1 ≤ countActiveContracts db clientId now then some (1 / 20) else none
  let final :=
    match highest with
    | some d =>
      match additional with
      | some a => d + a
      | none => d
    | none =>
      match additional with
      | some a => a
      | none => 0
  some final

/-- The outcome of a handler, tagging the status code and carrying the exact
message string of the source (`AppError::BadRequest` maps to 400,
`AppError::InternalServerError` to 500). -/
inductive HandlerResult where
  | created (msg : String)
  | okMsg (msg : String)
  | badRequest (msg : String)
  | internalError (msg : String)
deriving DecidableEq, Repr

/-- `PurchaseRequest` (handler/mod.rs:150). -/
structure PurchaseRequest where
  clientId : ClientId
  startDate : Int
  endDate : Int
  productId : Int
  yearsSupported : Int
deriving DecidableEq, Repr

/-- `create_contract` (handler/mod.rs:160): duplicate check, existence
checks, discount resolution, price computation `price * (1.0 - discount)`
(exact in this model; the source computes it in `f64`, see `fl` below), and
the contract insert. -/
def create_contract (db : Db) (now : Int) (r : PurchaseRequest) :
    Db × HandlerResult :=
  if check_if_client_has_contract_for_product db r.clientId r.productId then
    (db, .badRequest "Client already has contract for this product")
  else if !(check_if_product_exists db r.productId) then
    (db, .badRequest "Product does not exist")
  else if !(check_if_client_exists db r.clientId) then
    (db, .badRequest "Client does not exist")
  else
    let discount := (find_discounts_for_client db r.productId r.clientId now).getD 0
    match get_price_for_product db r.productId with
    | none => (db, .internalError "Failed to get price")
    | some price =>
      let finalPrice := price * (1 - discount)
      (create_contract_in_db db finalPrice r.productId r.clientId
        r.startDate r.endDate r.yearsSupported,
       .created "Contract created")

/-- `InstallmentsPayment` (handler/mod.rs:234). -/
structure InstallmentsPayment where
  contractId : Int
  clientId : ClientId
  amount : ℚ
deriving DecidableEq, Repr

/-- `SinglePayment` (handler/mod.rs:241). -/
structure SinglePayment where
  contractId : Int
  amount : ℚ
  clientId : ClientId
deriving DecidableEq, Repr

/-- `PaymentRequest` (handler/mod.rs:248). -/
inductive PaymentRequest where
  | installments (p : InstallmentsPayment)
  | singlePayment (p : SinglePayment)
deriving DecidableEq, Repr

/-- The client id extracted from a payment request (handler/mod.rs:257). -/
def requestClient : PaymentRequest → ClientId
  | .installments p => p.clientId
  | .singlePayment p => p.clientId

/-- The contract id extracted from a payment request (handler/mod.rs:257). -/
def requestContract : PaymentRequest → Int
  | .installments p => p.contractId
  | .singlePayment p => p.contractId

/-- The success message of the renewal branch (handler/mod.rs:326). -/
def renewalMsg : String :=
  "Missed payment, a new contract has been created. Any outstanding payments have been returned to you."

/-- `create_payment` (handler/mod.rs:253), the payment reconciler:
1. reject when the client does not exist;
2. reject when the contract is absent, deleted, or not owned by the client;
3. reject when the contract is already paid;
4. when `contract.end_date <= now`: insert a payment row of
   `check_outstanding_payments * -1`, insert a fresh contract with the same
   terms (the source round-trips the price through `f64`; identity for
   prices that were stored from `f64`), and answer 201 with `renewalMsg`;
5. installments: reject when `amount > check_outstanding_payments` (the sum
   of recorded payments), else insert the payment row and, when `amount ==
   check_outstanding_payments`, mark the contract paid;
6. single payment: reject when `amount != contract.price`, else insert the
   payment row and mark the contract paid. -/
def create_payment (db : Db) (now : Int) (req : PaymentRequest) :
    Db × HandlerResult :=
  let clientId := requestClient req
  let contractId := requestContract req
  if !(check_if_client_exists db clientId) then
    (db, .badRequest "Client does not exist")
  else
    match get_contract_by_id db clientId contractId with
    | none =>
      (db, .badRequest "Contract does not exist or does not belong to this client")
    | some contract =>
      if contract.isPaid then
        (db, .badRequest "Contract is already paid")
      else if contract.endDate ≤ now then
        let outstandingPayments := check_outstanding_payments db contractId
        let db1 := create_payment_record_in_db db contractId
          (outstandingPayments * (-1))
        let db2 := create_contract_in_db db1 contract.price contract.productId
          clientId contract.startDate contract.endDate contract.yearsSupported
        (db2, .created renewalMsg)
      else
        match req with
        | .installments p =>
          let outstandingPayments := check_outstanding_payments db contractId
          if outstandingPayments < p.amount then
            (db, .badRequest "Amount is greater than outstanding payments")
          else
            let db1 := pay_for_contract db contractId clientId p.amount
            if p.amount = outstandingPayments then
              (handle_full_payment db1 contractId clientId,
               .okMsg "Payment successful")
            else
              (db1, .okMsg "Payment successful")
        | .singlePayment p =>
          if p.amount ≠ contract.price then
            (db, .badRequest "Amount does not match contract price")
          else
            let db1 := pay_for_contract db contractId clientId p.amount
            (handle_full_payment db1 contractId clientId,
             .okMsg "Payment successful")

/-!
## A model of IEEE-754 binary64 rounding

The source performs its price and payment arithmetic on Rust `f64`
(`PurchaseRequest` amounts, `find_discounts_for_client`'s return type,
`price * (1.0 - discount)` at handler/mod.rs:216, `InstallmentsPayment.amount`,
`SinglePayment.amount`).  `fl` rounds an exact rational to the nearest
binary64 value (round-to-nearest, ties-to-even), for normal, non-overflowing
magnitudes — which covers every value appearing in the engine's price range.
-/

/-- Round a rational to the nearest integer, ties going to the even
integer — the final rounding step of round-to-nearest-even. -/
def rne (x : ℚ) : ℤ :=
  let f := ⌊x⌋
  let r := x - f
  if r < 1 / 2 then f
  else if 1 / 2 < r then f + 1
  else if 2 ∣ f then f else f + 1

/-- Multiply a positive rational by two until it reaches `2^52`, returning
the scaled value and the (negated) number of doublings; fuel-bounded. -/
def shiftUp : Nat → ℚ → ℚ × Int
  | 0, q => (q, 0)
  | n + 1, q =>
    if q < 2 ^ 52 then
      let (r, e) := shiftUp n (2 * q)
      (r, e - 1)
    else (q, 0)

/-- Halve a rational until it drops below `2^53`, returning the scaled value
and the number of halvings; fuel-bounded. -/
def shiftDown : Nat → ℚ → ℚ × Int
  | 0, q => (q, 0)
  | n + 1, q =>
    if 2 ^ 53 ≤ q then
      let (r, e) := shiftDown n (q / 2)
      (r, e + 1)
    else (q, 0)

/-- `m · 2^e` for an integer exponent of either sign. -/
def scalePow (m : ℤ) (e : Int) : ℚ :=
  if 0 ≤ e then (m : ℚ) * 2 ^ e.toNat else (m : ℚ) / 2 ^ (-e).toNat

/-- Round a positive rational to binary64: normalize the significand into
`[2^52, 2^53)`, round to an integer ties-to-even, and scale back. -/
def flPos (q : ℚ) : ℚ :=
  let (m₁, e₁) := shiftUp 4000 q
  let (m₂, e₂) := shiftDown 4000 m₁
  scalePow (rne m₂) (e₁ + e₂)

/-- Round a rational to the nearest binary64 value (normal range). -/
def fl (q : ℚ) : ℚ :=
  if q = 0 then 0
  else if q < 0 then -flPos (-q)
  else flPos q

/-- The `f64` evaluation of the source's contract-price computation
`price * (1.0 - discount)` (handler/mod.rs:216): the product price reaches
the expression through `BigDecimal::to_f64`, the discount is produced as an
`f64`, and the subtraction and multiplication each round their exact result
to binary64. -/
def priceF64 (productPrice discount : ℚ) : ℚ :=
  fl (fl productPrice * fl (1 - fl discount))

/-- The exact-arithmetic value of the same expression — the price the spec
prescribes. -/
def priceExact (productPrice discount : ℚ) : ℚ :=
  productPrice * (1 - discount)

/-!
## The ledger invariant

`DbInv` is the inductive strengthening of invariant I4 of the spec: every
contract's recorded payments sum to at most its price, and — the auxiliary
facts that make this preservable — an unpaid contract's ledger sum is
non-positive (a consequence of the installment guard comparing against the
sum of recorded payments), contract ids are pairwise distinct and below the
serial counter, payment rows reference only allocated contract ids, and
every payment row is non-deleted (the engine only ever inserts rows with
the `is_deleted` default `false`), so `check_outstanding_payments` is the
sum of the non-deleted payment amounts. -/
def DbInv (db : Db) : Prop :=
  (∀ c ∈ db.contracts,
      0 ≤ c.price ∧ c.id < db.nextContractId ∧
      check_outstanding_payments db c.id ≤ c.price ∧
      (c.isPaid = false → check_outstanding_payments db c.id ≤ 0)) ∧
  (∀ p ∈ db.payments, p.contractId < db.nextContractId) ∧
  (∀ p ∈ db.payments, p.isDeleted = false) ∧
  db.contracts.Pairwise (fun a b => a.id ≠ b.id)

/-!
## Concrete sample databases for witnesses and counterexamples
-/

/-- One client, one fresh unexpired contract (id 1, price 1000, validity
window `[0, 10)`), no payments. -/
def dbFresh : Db :=
  { clients := [.individual "A"],
    contracts := [⟨1, 1000, 1, .individual "A", 0, 10, 1, false, false, false⟩],
    payments := [],
    discounts := [],
    products := [⟨1, 1000⟩],
    nextContractId := 2 }

/-- Like `dbFresh`, with a recorded payment of 400 on contract 1. -/
def dbPartial : Db :=
  { dbFresh with payments := [⟨1, 400, false⟩] }

/-- Like `dbFresh`, with an active discount of 100% on product 1. -/
def dbDisc : Db :=
  { dbFresh with discounts := [⟨1, 1, 0, 10, false⟩] }

/-!
## Helper lemmas

The `Rat` arithmetic operations of the standard library are marked
irreducible; they are made semireducible locally so that concrete ledgers
can be evaluated by `decide`.
-/

attribute [local semireducible] Rat.add Rat.mul Rat.sub Rat.inv

theorem ledger_append (ps : List Payment) (q : Payment) (cid : Int) :
    (((ps ++ [q]).filter (fun p => p.contractId == cid)).map
        (fun p => p.amount)).sum
      = ((ps.filter (fun p => p.contractId == cid)).map
          (fun p => p.amount)).sum
        + (if q.contractId = cid then q.amount else 0) := by
  by_cases h : q.contractId = cid
  · simp [List.filter_append, h]
  · simp [List.filter_append, h]

theorem check_outstanding_create_record (db : Db) (cid : Int) (a : ℚ)
    (cid' : Int) :
    check_outstanding_payments (create_payment_record_in_db db cid a) cid'
      = check_outstanding_payments db cid' + (if cid = cid' then a else 0) := by
  simp only [check_outstanding_payments, get_payments_for_contract,
    create_payment_record_in_db]
  exact ledger_append db.payments ⟨cid, a, false⟩ cid'

theorem ledger_missing (ps : List Payment) (cid : Int)
    (h : ∀ p ∈ ps, p.contractId ≠ cid) :
    ((ps.filter (fun p => p.contractId == cid)).map (fun p => p.amount)).sum
      = 0 := by
  have hnil : ps.filter (fun p => p.contractId == cid) = [] := by
    rw [List.filter_eq_nil_iff]
    intro p hp
    simp [h p hp]
  simp [hnil]

theorem get_contract_by_id_eq_some {db : Db} {clientId : ClientId} {cid : Int}
    {c : Contract} (h : get_contract_by_id db clientId cid = some c) :
    c ∈ db.contracts ∧ c.id = cid ∧ c.clientId = clientId ∧
      c.isDeleted = false := by
  unfold get_contract_by_id at h
  refine ⟨List.mem_of_find?_eq_some h, ?_⟩
  have hp := List.find?_some h
  simp only [Bool.and_eq_true, beq_iff_eq, Bool.not_eq_true'] at hp
  exact ⟨hp.1.1, hp.1.2, hp.2⟩

theorem pairwise_id_eq {l : List Contract}
    (h : l.Pairwise (fun a b => a.id ≠ b.id)) :
    ∀ a ∈ l, ∀ b ∈ l, a.id = b.id → a = b := by
  induction h with
  | nil => intro a ha; exact absurd ha (List.not_mem_nil a)
  | cons hx _ ih =>
    intro a ha b hb hab
    cases ha with
    | head =>
      cases hb with
      | head => rfl
      | tail _ hb => exact absurd hab (hx b hb)
    | tail _ ha =>
      cases hb with
      | head => exact absurd hab.symm (hx a ha)
      | tail _ hb => exact ih a ha b hb hab

theorem listMaxQ_bounds {lo hi : ℚ} :
    ∀ {l : List ℚ}, (∀ x ∈ l, lo ≤ x ∧ x ≤ hi) →
      ∀ {m : ℚ}, listMaxQ l = some m → lo ≤ m ∧ m ≤ hi := by
  intro l
  induction l with
  | nil =>
    intro _ m hm
    simp [listMaxQ] at hm
  | cons x xs ih =>
    intro hb m hm
    unfold listMaxQ at hm
    cases hxs : listMaxQ xs with
    | none =>
      rw [hxs] at hm
      cases hm
      exact hb x (List.mem_cons_self x xs)
    | some mx =>
      rw [hxs] at hm
      cases hm
      have h1 := hb x (List.mem_cons_self x xs)
      have h2 := ih (fun y hy => hb y (List.mem_cons_of_mem x hy)) hxs
      exact ⟨le_trans h1.1 (le_max_left x mx), max_le h1.2 h2.2⟩

/-- Characterization of the renewal branch of `create_payment`
(handler/mod.rs:292-328): when the client exists, the contract is found,
unpaid, and `end_date <= now`, the handler appends a payment of
`-(sum of recorded payments)`, appends a fresh contract with the same terms,
and answers 201 with `renewalMsg`.  The old contract row is not modified. -/
theorem create_payment_renewal (db : Db) (now : Int) (req : PaymentRequest)
    (c : Contract)
    (hcl : check_if_client_exists db (requestClient req) = true)
    (hc : get_contract_by_id db (requestClient req) (requestContract req)
      = some c)
    (hpaid : c.isPaid = false)
    (hexp : c.endDate ≤ now) :
    create_payment db now req =
      ({ db with
          payments := db.payments ++
            [⟨requestContract req,
              check_outstanding_payments db (requestContract req) * (-1),
              false⟩],
          contracts := db.contracts ++
            [⟨db.nextContractId, c.price, c.productId, requestClient req,
              c.startDate, c.endDate, c.yearsSupported, false, false, false⟩],
          nextContractId := db.nextContractId + 1 },
       .created renewalMsg) := by
  unfold create_payment
  simp only [hcl, Bool.not_true, Bool.false_eq_true, if_false, hc, hpaid,
    if_pos hexp, create_payment_record_in_db, create_contract_in_db]

theorem create_payment_no_client (db : Db) (now : Int) (req : PaymentRequest)
    (hcl : check_if_client_exists db (requestClient req) = false) :
    create_payment db now req = (db, .badRequest "Client does not exist") := by
  unfold create_payment
  simp only [hcl, Bool.not_false, if_true]

theorem create_payment_no_contract (db : Db) (now : Int) (req : PaymentRequest)
    (hcl : check_if_client_exists db (requestClient req) = true)
    (hc : get_contract_by_id db (requestClient req) (requestContract req)
      = none) :
    create_payment db now req =
      (db, .badRequest
        "Contract does not exist or does not belong to this client") := by
  unfold create_payment
  simp only [hcl, Bool.not_true, Bool.false_eq_true, if_false, hc]

theorem create_payment_already_paid (db : Db) (now : Int)
    (req : PaymentRequest) (c : Contract)
    (hcl : check_if_client_exists db (requestClient req) = true)
    (hc : get_contract_by_id db (requestClient req) (requestContract req)
      = some c)
    (hpaid : c.isPaid = true) :
    create_payment db now req = (db, .badRequest "Contract is already paid") := by
  unfold create_payment
  simp only [hcl, Bool.not_true, Bool.false_eq_true, if_false, hc, hpaid,
    if_true]

/-- Characterization of the installment branch (handler/mod.rs:331-367) once
the guards have passed and the contract is not expired. -/
theorem create_payment_installments_eq (db : Db) (now : Int)
    (p : InstallmentsPayment) (c : Contract)
    (hcl : check_if_client_exists db p.clientId = true)
    (hc : get_contract_by_id db p.clientId p.contractId = some c)
    (hpaid : c.isPaid = false)
    (hexp : ¬ (c.endDate ≤ now)) :
    create_payment db now (.installments p) =
      (if check_outstanding_payments db p.contractId < p.amount then
        (db, .badRequest "Amount is greater than outstanding payments")
      else if p.amount = check_outstanding_payments db p.contractId then
        (handle_full_payment
          (pay_for_contract db p.contractId p.clientId p.amount)
          p.contractId p.clientId,
         .okMsg "Payment successful")
      else
        (pay_for_contract db p.contractId p.clientId p.amount,
         .okMsg "Payment successful")) := by
  unfold create_payment
  simp only [requestClient, requestContract, hcl, Bool.not_true,
    Bool.false_eq_true, if_false, hc, hpaid, if_neg hexp]

/-- Characterization of the single-payment branch (handler/mod.rs:369-392)
once the guards have passed and the contract is not expired. -/
theorem create_payment_single_eq (db : Db) (now : Int) (p : SinglePayment)
    (c : Contract)
    (hcl : check_if_client_exists db p.clientId = true)
    (hc : get_contract_by_id db p.clientId p.contractId = some c)
    (hpaid : c.isPaid = false)
    (hexp : ¬ (c.endDate ≤ now)) :
    create_payment db now (.singlePayment p) =
      (if p.amount ≠ c.price then
        (db, .badRequest "Amount does not match contract price")
      else
        (handle_full_payment
          (pay_for_contract db p.contractId p.clientId p.amount)
          p.contractId p.clientId,
         .okMsg "Payment successful")) := by
  unfold create_payment
  simp only [requestClient, requestContract, hcl, Bool.not_true,
    Bool.false_eq_true, if_false, hc, hpaid, if_neg hexp]

theorem create_record_contracts (db : Db) (cid : Int) (a : ℚ) :
    (create_payment_record_in_db db cid a).contracts = db.contracts := rfl

theorem create_record_next (db : Db) (cid : Int) (a : ℚ) :
    (create_payment_record_in_db db cid a).nextContractId
      = db.nextContractId := rfl

theorem create_record_payments (db : Db) (cid : Int) (a : ℚ) :
    (create_payment_record_in_db db cid a).payments
      = db.payments ++ [⟨cid, a, false⟩] := rfl

theorem handle_full_contracts (db : Db) (cid : Int) (cl : ClientId) :
    (handle_full_payment db cid cl).contracts
      = db.contracts.map (fun c =>
          if c.id == cid && c.clientId == cl then { c with isPaid := true }
          else c) := rfl

theorem handle_full_payments (db : Db) (cid : Int) (cl : ClientId) :
    (handle_full_payment db cid cl).payments = db.payments := rfl

theorem handle_full_next (db : Db) (cid : Int) (cl : ClientId) :
    (handle_full_payment db cid cl).nextContractId = db.nextContractId := rfl

theorem check_outstanding_handle_full (db : Db) (cid : Int) (cl : ClientId)
    (cid' : Int) :
    check_outstanding_payments (handle_full_payment db cid cl) cid'
      = check_outstanding_payments db cid' := rfl

theorem check_outstanding_of_payments {db' db : Db} {q : Payment}
    (hq : db'.payments = db.payments ++ [q]) (cid' : Int) :
    check_outstanding_payments db' cid'
      = check_outstanding_payments db cid'
        + (if q.contractId = cid' then q.amount else 0) := by
  simp only [check_outstanding_payments, get_payments_for_contract, hq]
  exact ledger_append db.payments q cid'

/-- Recording a payment on a contract whose new ledger sum stays
non-positive preserves the invariant (the partial-installment case). -/
theorem DbInv_record {db : Db} {c : Contract} {a : ℚ} (h : DbInv db)
    (hcmem : c ∈ db.contracts)
    (ha : check_outstanding_payments db c.id + a ≤ 0) :
    DbInv (create_payment_record_in_db db c.id a) := by
  obtain ⟨hcon, hpay, hdel, hpw⟩ := h
  have h0c := hcon c hcmem
  refine ⟨?_, ?_, ?_, ?_⟩
  · intro c' hc'
    rw [create_record_contracts] at hc'
    obtain ⟨h0, h1, h2, h3⟩ := hcon c' hc'
    rw [create_record_next, check_outstanding_create_record]
    by_cases hid : c.id = c'.id
    · have hcc : c' = c := pairwise_id_eq hpw c' hc' c hcmem hid.symm
      subst hcc
      rw [if_pos hid]
      exact ⟨h0, h1, le_trans ha h0, fun _ => ha⟩
    · rw [if_neg hid, add_zero]
      exact ⟨h0, h1, h2, h3⟩
  · intro p hp
    rw [create_record_payments] at hp
    rw [create_record_next]
    rcases List.mem_append.mp hp with hp | hp
    · exact hpay p hp
    · simp only [List.mem_singleton] at hp
      subst hp
      exact h0c.2.1
  · intro p hp
    rw [create_record_payments] at hp
    rcases List.mem_append.mp hp with hp | hp
    · exact hdel p hp
    · simp only [List.mem_singleton] at hp
      subst hp
      rfl
  · rw [create_record_contracts]
    exact hpw

/-- Recording a payment on a contract and then marking it paid preserves the
invariant when the new ledger sum stays at most the price (the
full-installment and single-payment cases). -/
theorem DbInv_record_mark {db : Db} {c : Contract} {a : ℚ} (h : DbInv db)
    (hcmem : c ∈ db.contracts)
    (ha : check_outstanding_payments db c.id + a ≤ c.price) :
    DbInv (handle_full_payment (create_payment_record_in_db db c.id a)
      c.id c.clientId) := by
  obtain ⟨hcon, hpay, hdel, hpw⟩ := h
  have h0c := hcon c hcmem
  have hfid : ∀ x : Contract,
      (if x.id == c.id && x.clientId == c.clientId then
        { x with isPaid := true } else x).id = x.id := by
    intro x; split <;> rfl
  have hfprice : ∀ x : Contract,
      (if x.id == c.id && x.clientId == c.clientId then
        { x with isPaid := true } else x).price = x.price := by
    intro x; split <;> rfl
  refine ⟨?_, ?_, ?_, ?_⟩
  · intro c' hc'
    rw [handle_full_contracts, create_record_contracts] at hc'
    obtain ⟨x, hx, rfl⟩ := List.mem_map.mp hc'
    obtain ⟨h0, h1, h2, h3⟩ := hcon x hx
    rw [handle_full_next, create_record_next, hfid, hfprice,
      check_outstanding_handle_full, check_outstanding_create_record]
    by_cases hid : c.id = x.id
    · have hcc : x = c := pairwise_id_eq hpw x hx c hcmem hid.symm
      subst hcc
      rw [if_pos hid]
      have hmark : (if x.id == x.id && x.clientId == x.clientId then
          { x with isPaid := true } else x) = { x with isPaid := true } := by
        simp
      rw [hmark]
      refine ⟨h0, h1, ha, ?_⟩
      intro habs
      simp at habs
    · rw [if_neg hid, add_zero]
      have huntouched : (if x.id == c.id && x.clientId == c.clientId then
          { x with isPaid := true } else x) = x := by
        have : (x.id == c.id) = false := by
          simp only [beq_eq_false_iff_ne, ne_eq]
          exact fun hxe => hid hxe.symm
        simp [this]
      rw [huntouched]
      exact ⟨h0, h1, h2, h3⟩
  · intro p hp
    rw [handle_full_payments, create_record_payments] at hp
    rw [handle_full_next, create_record_next]
    rcases List.mem_append.mp hp with hp | hp
    · exact hpay p hp
    · simp only [List.mem_singleton] at hp
      subst hp
      exact h0c.2.1
  · intro p hp
    rw [handle_full_payments, create_record_payments] at hp
    rcases List.mem_append.mp hp with hp | hp
    · exact hdel p hp
    · simp only [List.mem_singleton] at hp
      subst hp
      rfl
  · rw [handle_full_contracts, create_record_contracts]
    rw [List.pairwise_map]
    exact hpw.imp (fun hab => by rw [hfid, hfid]; exact hab)

/-- The renewal branch preserves the invariant: the refund zeroes the old
contract's ledger and the fresh contract starts with an empty ledger. -/
theorem DbInv_renewal {db : Db} {c : Contract} (cl : ClientId) (h : DbInv db)
    (hcmem : c ∈ db.contracts) (hpaidF : c.isPaid = false) :
    DbInv { db with
      payments := db.payments ++
        [⟨c.id, check_outstanding_payments db c.id * (-1), false⟩],
      contracts := db.contracts ++
        [⟨db.nextContractId, c.price, c.productId, cl, c.startDate, c.endDate,
          c.yearsSupported, false, false, false⟩],
      nextContractId := db.nextContractId + 1 } := by
  obtain ⟨hcon, hpay, hdel, hpw⟩ := h
  have h0c := hcon c hcmem
  have hsum : ∀ cid' : Int,
      check_outstanding_payments { db with
        payments := db.payments ++
          [⟨c.id, check_outstanding_payments db c.id * (-1), false⟩],
        contracts := db.contracts ++
          [⟨db.nextContractId, c.price, c.productId, cl, c.startDate,
            c.endDate, c.yearsSupported, false, false, false⟩],
        nextContractId := db.nextContractId + 1 } cid'
      = check_outstanding_payments db cid'
        + (if c.id = cid' then check_outstanding_payments db c.id * (-1)
           else 0) := by
    intro cid'
    exact check_outstanding_of_payments
      (show _ = db.payments
        ++ [⟨c.id, check_outstanding_payments db c.id * (-1), false⟩]
        from rfl) cid'
  refine ⟨?_, ?_, ?_, ?_⟩
  · intro c' hc'
    rcases List.mem_append.mp hc' with hc' | hc'
    · obtain ⟨h0, h1, h2, h3⟩ := hcon c' hc'
      rw [hsum]
      by_cases hid : c.id = c'.id
      · have hcc : c' = c := pairwise_id_eq hpw c' hc' c hcmem hid.symm
        subst hcc
        rw [if_pos hid]
        have hzero : check_outstanding_payments db c'.id
            + check_outstanding_payments db c'.id * (-1) = 0 := by ring
        rw [hzero]
        refine ⟨h0, ?_, h0, fun _ => le_refl 0⟩
        show c'.id < db.nextContractId + 1
        omega
      · rw [if_neg hid, add_zero]
        refine ⟨h0, ?_, h2, h3⟩
        show c'.id < db.nextContractId + 1
        omega
    · simp only [List.mem_singleton] at hc'
      subst hc'
      rw [hsum]
      have hne : ¬ (c.id = db.nextContractId) := by
        have := h0c.2.1
        omega
      rw [if_neg hne]
      have hzero : check_outstanding_payments db db.nextContractId = 0 := by
        apply ledger_missing
        intro p hp
        have := hpay p hp
        omega
      rw [hzero, add_zero]
      refine ⟨h0c.1, ?_, h0c.1, fun _ => le_refl 0⟩
      show db.nextContractId < db.nextContractId + 1
      omega
  · intro p hp
    rcases List.mem_append.mp hp with hp | hp
    · have := hpay p hp
      show p.contractId < db.nextContractId + 1
      omega
    · simp only [List.mem_singleton] at hp
      subst hp
      have := h0c.2.1
      show c.id < db.nextContractId + 1
      omega
  · intro p hp
    rcases List.mem_append.mp hp with hp | hp
    · exact hdel p hp
    · simp only [List.mem_singleton] at hp
      subst hp
      rfl
  · rw [List.pairwise_append]
    refine ⟨hpw, List.pairwise_singleton _ _, ?_⟩
    intro a ha b hb
    simp only [List.mem_singleton] at hb
    subst hb
    have := (hcon a ha).2.1
    show a.id ≠ db.nextContractId
    omega

/-!
## The claims
-/

/-- C1: the claim states that an installment on an existing, owned, unpaid,
unexpired contract is accepted iff its amount is positive and at most
`price − sum(payments)`.  The code instead compares the amount against
`check_outstanding_payments`, which returns the sum of the recorded
payments itself: on a fresh 1000.00 contract with an empty ledger, an
installment of 500.00 — well within the outstanding balance of 1000.00 —
is rejected with `InvalidInput` and no payment row is inserted.  This
evaluates the code at that failing input. -/
theorem c1_installment_rejected_against_paid_sum :
    create_payment dbFresh 5 (.installments ⟨1, .individual "A", 500⟩) =
      (dbFresh, .badRequest "Amount is greater than outstanding payments") := by
  decide

/-- C2: the claim states `is_paid` becomes true exactly when the recorded
payments sum to the price.  In the code, an installment is accepted when its
amount is at most the sum of recorded payments and marks the contract paid
when it equals that sum: a first installment of 0.00 on a fresh 1000.00
contract is accepted and sets `is_paid = true` while the ledger sums to
0 < 1000.  This evaluates the code at that failing input. -/
theorem c2_is_paid_without_full_sum :
    (create_payment dbFresh 5 (.installments ⟨1, .individual "A", 0⟩)).2
        = .okMsg "Payment successful" ∧
    ((create_payment dbFresh 5
        (.installments ⟨1, .individual "A", 0⟩)).1.contracts.map
        (fun c => c.isPaid)) = [true] ∧
    check_outstanding_payments
        (create_payment dbFresh 5 (.installments ⟨1, .individual "A", 0⟩)).1 1
      = 0 ∧
    ((0 : ℚ) < 1000) := by
  decide

/-- C5: a SinglePayment on an existing, owned, unpaid, unexpired contract is
accepted iff its amount equals the contract's locked price under exact Money
equality; on any mismatch the result is InvalidInput ("Amount does not match
contract price") and the database — contract row and payment ledger — is
left completely unchanged. -/
theorem c5_single_payment_exact_price (db : Db) (now : Int)
    (p : SinglePayment) (c : Contract)
    (hcl : check_if_client_exists db p.clientId = true)
    (hc : get_contract_by_id db p.clientId p.contractId = some c)
    (hpaid : c.isPaid = false)
    (hexp : now < c.endDate) :
    ((create_payment db now (.singlePayment p)).2 = .okMsg "Payment successful"
      ↔ p.amount = c.price) ∧
    (p.amount ≠ c.price →
      create_payment db now (.singlePayment p)
        = (db, .badRequest "Amount does not match contract price")) := by
  have hne : ¬ (c.endDate ≤ now) := not_le.mpr hexp
  rw [create_payment_single_eq db now p c hcl hc hpaid hne]
  by_cases hA : p.amount = c.price
  · simp [hA]
  · simp [hA]

/-- Witness for C5 at a concrete input: exact payment of 1000.00 on the
1000.00 contract of `dbFresh`. -/
theorem c5_single_payment_exact_price_witness :
    ((create_payment dbFresh 5
        (.singlePayment ⟨1, 1000, .individual "A"⟩)).2
        = .okMsg "Payment successful" ↔ (1000 : ℚ) = 1000) ∧
    ((1000 : ℚ) ≠ 1000 →
      create_payment dbFresh 5 (.singlePayment ⟨1, 1000, .individual "A"⟩)
        = (dbFresh, .badRequest "Amount does not match contract price")) :=
  c5_single_payment_exact_price dbFresh 5 ⟨1, 1000, .individual "A"⟩
    ⟨1, 1000, 1, .individual "A", 0, 10, 1, false, false, false⟩
    (by decide) (by decide) (by decide) (by decide)

/-- C7: the claim requires exact decimal price arithmetic with no binary
floating point anywhere.  The code computes `price * (1.0 - discount)` on
`f64` (handler/mod.rs:216) and stores the result.  Under the binary64 model
`priceF64`, the claim's two scenarios (1000.00 with discounts 0.10 and 0.15)
happen to round to exactly 900 and 850, but a product priced 100.00 with a
resolved discount of 0.55 (base 0.50 plus the 0.05 recurring bonus) stores
6333186975989759/2^47 = 44.99999999999999289…, not the exact 45 that
`priceExact` — the spec's exact-decimal arithmetic — produces. -/
theorem c7_f64_price_not_exact :
    priceF64 100 (11 / 20) = 6333186975989759 / 140737488355328 ∧
    priceF64 100 (11 / 20) ≠ 45 ∧
    priceExact 100 (11 / 20) = 45 ∧
    priceF64 1000 (1 / 10) = 900 ∧
    priceF64 1000 (3 / 20) = 850 ∧
    priceExact 1000 (1 / 10) = 900 ∧
    priceExact 1000 (3 / 20) = 850 := by
  decide

/-- C9: on a contract whose payment ledger is empty, every installment with
a strictly positive amount is rejected with "Amount is greater than
outstanding payments" and the database is unchanged, because the amount is
compared against the sum of already-recorded payments (zero for a fresh
contract); hence no strictly positive installment can ever be the first
payment recorded on a contract. -/
theorem c9_positive_installment_on_empty_ledger_rejected (db : Db) (now : Int)
    (p : InstallmentsPayment) (c : Contract)
    (hcl : check_if_client_exists db p.clientId = true)
    (hc : get_contract_by_id db p.clientId p.contractId = some c)
    (hpaid : c.isPaid = false)
    (hexp : now < c.endDate)
    (hledger : get_payments_for_contract db p.contractId = [])
    (hpos : 0 < p.amount) :
    create_payment db now (.installments p) =
      (db, .badRequest "Amount is greater than outstanding payments") := by
  have hne : ¬ (c.endDate ≤ now) := not_le.mpr hexp
  rw [create_payment_installments_eq db now p c hcl hc hpaid hne]
  have hz : check_outstanding_payments db p.contractId = 0 := by
    simp [check_outstanding_payments, hledger]
  rw [hz, if_pos hpos]

/-- Witness for C9 at a concrete input: an installment of 100.00 on the
fresh 1000.00 contract of `dbFresh`. -/
theorem c9_positive_installment_on_empty_ledger_rejected_witness :
    create_payment dbFresh 5 (.installments ⟨1, .individual "A", 100⟩) =
      (dbFresh, .badRequest "Amount is greater than outstanding payments") :=
  c9_positive_installment_on_empty_ledger_rejected dbFresh 5
    ⟨1, .individual "A", 100⟩
    ⟨1, 1000, 1, .individual "A", 0, 10, 1, false, false, false⟩
    (by decide) (by decide) (by decide) (by decide) (by decide) (by decide)

/-- C3 counterexample: the claim states the renewal appends a refund equal
to the negation of `price − sum(payments)` and marks the old contract
`is_deleted = true`.  On `dbPartial` (price 1000.00, one payment of 400.00,
expired at `now = 20`): the claim predicts a refund row of −600.00 and a
deleted old contract; the code instead appends a refund of −400.00 (the
negated sum of recorded payments — which is what makes the ledger sum to
zero) and leaves every contract row non-deleted. -/
theorem c3_renewal_counterexample :
    (create_payment dbPartial 20
        (.installments ⟨1, .individual "A", 100⟩)).1.payments
      = [⟨1, 400, false⟩, ⟨1, -400, false⟩] ∧
    ((create_payment dbPartial 20
        (.installments ⟨1, .individual "A", 100⟩)).1.contracts.map
        (fun c => c.isDeleted)) = [false, false] := by
  decide

/-- C3 (amended): when a payment is attempted against an expired, unpaid,
owned contract, the engine appends a refund payment equal to the negation of
the sum of the old contract's recorded payments (so the old ledger sums to
zero), leaves the old contract row unmodified (`is_deleted` remains false),
creates a new contract for the same client, product, price, start_date,
end_date and years_supported with `is_signed = false` and `is_paid = false`,
and returns the Renewed success result. -/
theorem c3_renewal_refund_and_new_contract (db : Db) (now : Int)
    (req : PaymentRequest) (c : Contract)
    (hcl : check_if_client_exists db (requestClient req) = true)
    (hc : get_contract_by_id db (requestClient req) (requestContract req)
      = some c)
    (hpaid : c.isPaid = false)
    (hexp : c.endDate ≤ now) :
    (create_payment db now req).2 = .created renewalMsg ∧
    (create_payment db now req).1.payments = db.payments ++
      [⟨requestContract req,
        check_outstanding_payments db (requestContract req) * (-1), false⟩] ∧
    check_outstanding_payments (create_payment db now req).1
      (requestContract req) = 0 ∧
    (create_payment db now req).1.contracts = db.contracts ++
      [⟨db.nextContractId, c.price, c.productId, requestClient req,
        c.startDate, c.endDate, c.yearsSupported, false, false, false⟩] := by
  rw [create_payment_renewal db now req c hcl hc hpaid hexp]
  refine ⟨rfl, rfl, ?_, rfl⟩
  rw [check_outstanding_of_payments
    (show _ = db.payments ++
      [⟨requestContract req,
        check_outstanding_payments db (requestContract req) * (-1), false⟩]
      from rfl)]
  rw [if_pos rfl]
  ring

/-- Witness for C3 (amended) at a concrete input: renewal of the expired,
partially paid contract of `dbPartial` at `now = 20`. -/
theorem c3_renewal_refund_and_new_contract_witness :
    (create_payment dbPartial 20
        (.installments ⟨1, .individual "A", 100⟩)).2 = .created renewalMsg ∧
    (create_payment dbPartial 20
        (.installments ⟨1, .individual "A", 100⟩)).1.payments
      = dbPartial.payments ++
        [⟨1, check_outstanding_payments dbPartial 1 * (-1), false⟩] ∧
    check_outstanding_payments
      (create_payment dbPartial 20
        (.installments ⟨1, .individual "A", 100⟩)).1 1 = 0 ∧
    (create_payment dbPartial 20
        (.installments ⟨1, .individual "A", 100⟩)).1.contracts
      = dbPartial.contracts ++
        [⟨dbPartial.nextContractId, 1000, 1, .individual "A", 0, 10, 1,
          false, false, false⟩] :=
  c3_renewal_refund_and_new_contract dbPartial 20
    (.installments ⟨1, .individual "A", 100⟩)
    ⟨1, 1000, 1, .individual "A", 0, 10, 1, false, false, false⟩
    (by decide) (by decide) (by decide) (by decide)

/-- C8 counterexample: the claim states a payment arriving when `now` equals
`end_date` is processed as an ordinary payment.  On `dbPartial` the contract
has `end_date = 10`; a payment attempt at `now = 10` instead triggers the
renewal flow: the result is the Renewed response and the requested 100.00 is
not recorded — only the −400.00 refund row is appended. -/
theorem c8_boundary_counterexample :
    (create_payment dbPartial 10
        (.installments ⟨1, .individual "A", 100⟩)).2 = .created renewalMsg ∧
    (create_payment dbPartial 10
        (.installments ⟨1, .individual "A", 100⟩)).1.payments
      = [⟨1, 400, false⟩, ⟨1, -400, false⟩] ∧
    ((10 : Int) ≤ 10 ∧ ¬ ((10 : Int) < 10)) := by
  decide

/-- C8 (amended): for a payment request on an existing, owned, unpaid
contract, the renewal flow is triggered iff `contract.end_date ≤ now`
(so a request arriving when `now` equals `end_date` is renewed, not
processed as an ordinary payment), and in the renewal case no payment from
the request is recorded against the expired contract — the only appended
payment row is the refund. -/
theorem c8_renewal_iff_end_date_le_now (db : Db) (now : Int)
    (req : PaymentRequest) (c : Contract)
    (hcl : check_if_client_exists db (requestClient req) = true)
    (hc : get_contract_by_id db (requestClient req) (requestContract req)
      = some c)
    (hpaid : c.isPaid = false) :
    ((create_payment db now req).2 = .created renewalMsg ↔ c.endDate ≤ now) ∧
    (c.endDate ≤ now →
      (create_payment db now req).1.payments = db.payments ++
        [⟨requestContract req,
          check_outstanding_payments db (requestContract req) * (-1),
          false⟩]) := by
  by_cases hexp : c.endDate ≤ now
  · rw [create_payment_renewal db now req c hcl hc hpaid hexp]
    exact ⟨iff_of_true rfl hexp, fun _ => rfl⟩
  · refine ⟨iff_of_false ?_ hexp, fun h => absurd h hexp⟩
    cases req with
    | installments p =>
      rw [create_payment_installments_eq db now p c hcl hc hpaid hexp]
      split
      · simp
      · split <;> simp
    | singlePayment p =>
      rw [create_payment_single_eq db now p c hcl hc hpaid hexp]
      split <;> simp

/-- Witness for C8 (amended) at a concrete input: the boundary instant
`now = end_date = 10` on `dbPartial`. -/
theorem c8_renewal_iff_end_date_le_now_witness :
    ((create_payment dbPartial 10
        (.installments ⟨1, .individual "A", 100⟩)).2 = .created renewalMsg
      ↔ (10 : Int) ≤ 10) ∧
    ((10 : Int) ≤ 10 →
      (create_payment dbPartial 10
          (.installments ⟨1, .individual "A", 100⟩)).1.payments
        = dbPartial.payments ++
          [⟨1, check_outstanding_payments dbPartial 1 * (-1), false⟩]) :=
  c8_renewal_iff_end_date_le_now dbPartial 10
    (.installments ⟨1, .individual "A", 100⟩)
    ⟨1, 1000, 1, .individual "A", 0, 10, 1, false, false, false⟩
    (by decide) (by decide) (by decide)

/-- C6 counterexample: the claim states the discount resolver returns
`clamp(base + bonus, 0, 1)`, in particular a rate in `[0, 1]`.  On `dbDisc`
(one active discount of 1.0 on product 1; the client holds an active
contract, so the 0.05 bonus applies) the resolver returns 21/20 = 1.05,
which exceeds 1 — there is no clamping in the code. -/
theorem c6_discount_counterexample :
    find_discounts_for_client dbDisc 1 (.individual "A") 5 = some (21 / 20) ∧
    ¬ ((21 : ℚ) / 20 ≤ 1) := by
  decide

/-- C6 (amended): the discount resolver returns exactly `base + bonus` with
no clamping, where `base` is the highest percentage among non-deleted
discounts for the product whose window satisfies `start_date ≤ now <
end_date` (0 if none) and `bonus` is 0.05 iff the client has at least one
non-deleted contract whose validity window contains `now`; when all stored
percentages lie in `[0, 1]` the returned rate lies in `[0, 21/20]`, not in
`[0, 1]`. -/
theorem c6_discount_is_unclamped_sum (db : Db) (productId : Int)
    (clientId : ClientId) (now : Int)
    (hb : ∀ d ∈ db.discounts, 0 ≤ d.percentage ∧ d.percentage ≤ 1) :
    find_discounts_for_client db productId clientId now =
      some ((highestActiveDiscount db productId now).getD 0
        + (if 1 ≤ countActiveContracts db clientId now then (1 : ℚ) / 20
           else 0)) ∧
    0 ≤ (highestActiveDiscount db productId now).getD 0
        + (if 1 ≤ countActiveContracts db clientId now then (1 : ℚ) / 20
           else 0) ∧
    (highestActiveDiscount db productId now).getD 0
        + (if 1 ≤ countActiveContracts db clientId now then (1 : ℚ) / 20
           else 0)
      ≤ 21 / 20 := by
  have hbase : 0 ≤ (highestActiveDiscount db productId now).getD 0 ∧
      (highestActiveDiscount db productId now).getD 0 ≤ 1 := by
    cases hmax : highestActiveDiscount db productId now with
    | none => simp
    | some m =>
      have hm : 0 ≤ m ∧ m ≤ 1 := by
        refine listMaxQ_bounds ?_ hmax
        intro x hx
        obtain ⟨d, hd, rfl⟩ := List.mem_map.mp hx
        exact hb d (List.mem_of_mem_filter hd)
      simpa using hm
  refine ⟨?_, ?_, ?_⟩
  · unfold find_discounts_for_client
    cases hmax : highestActiveDiscount db productId now with
    | none =>
      by_cases hcnt : 1 ≤ countActiveContracts db clientId now
      · simp [hcnt]
      · simp [hcnt]
    | some m =>
      by_cases hcnt : 1 ≤ countActiveContracts db clientId now
      · simp [hcnt]
      · simp [hcnt]
  · by_cases hcnt : 1 ≤ countActiveContracts db clientId now
    · rw [if_pos hcnt]
      linarith [hbase.1]
    · rw [if_neg hcnt, add_zero]
      exact hbase.1
  · by_cases hcnt : 1 ≤ countActiveContracts db clientId now
    · rw [if_pos hcnt]
      linarith [hbase.2]
    · rw [if_neg hcnt, add_zero]
      linarith [hbase.2]

/-- Witness for C6 (amended) at a concrete input: `dbDisc`, whose stored
percentages all lie in `[0, 1]`. -/
theorem c6_discount_is_unclamped_sum_witness :
    find_discounts_for_client dbDisc 1 (.individual "A") 5 =
      some ((highestActiveDiscount dbDisc 1 5).getD 0
        + (if 1 ≤ countActiveContracts dbDisc (.individual "A") 5
           then (1 : ℚ) / 20 else 0)) ∧
    0 ≤ (highestActiveDiscount dbDisc 1 5).getD 0
        + (if 1 ≤ countActiveContracts dbDisc (.individual "A") 5
           then (1 : ℚ) / 20 else 0) ∧
    (highestActiveDiscount dbDisc 1 5).getD 0
        + (if 1 ≤ countActiveContracts dbDisc (.individual "A") 5
           then (1 : ℚ) / 20 else 0)
      ≤ 21 / 20 :=
  c6_discount_is_unclamped_sum dbDisc 1 (.individual "A") 5 (by decide)

/-- C10: every contract created by the renewal flow reuses the expired
contract's `start_date` and `end_date` and is created with
`is_paid = false`, so it already satisfies `end_date ≤ now` at the moment of
its creation; consequently any later payment attempt (at any time
`now₂ ≥ now`, in any database state in which that contract is looked up)
triggers the renewal flow again instead of recording a payment: the result
is the Renewed response, the only appended payment row is the refund, and no
contract's `is_paid` field is changed — so a renewal-born contract is never
marked paid through `create_payment`. -/
theorem c10_renewed_contract_renews_again (db : Db) (now : Int)
    (req : PaymentRequest) (c : Contract)
    (hcl : check_if_client_exists db (requestClient req) = true)
    (hc : get_contract_by_id db (requestClient req) (requestContract req)
      = some c)
    (hpaid : c.isPaid = false)
    (hexp : c.endDate ≤ now) :
    let newC : Contract := ⟨db.nextContractId, c.price, c.productId,
      requestClient req, c.startDate, c.endDate, c.yearsSupported,
      false, false, false⟩
    (create_payment db now req).1.contracts = db.contracts ++ [newC] ∧
    newC.startDate = c.startDate ∧
    newC.endDate = c.endDate ∧
    newC.isPaid = false ∧
    newC.endDate ≤ now ∧
    ∀ (db₂ : Db) (now₂ : Int) (req₂ : PaymentRequest), now ≤ now₂ →
      check_if_client_exists db₂ (requestClient req₂) = true →
      get_contract_by_id db₂ (requestClient req₂) (requestContract req₂)
        = some newC →
      (create_payment db₂ now₂ req₂).2 = .created renewalMsg ∧
      ((create_payment db₂ now₂ req₂).1.contracts.map (fun x => x.isPaid))
        = (db₂.contracts.map (fun x => x.isPaid)) ++ [false] ∧
      (create_payment db₂ now₂ req₂).1.payments = db₂.payments ++
        [⟨requestContract req₂,
          check_outstanding_payments db₂ (requestContract req₂) * (-1),
          false⟩] := by
  intro newC
  refine ⟨?_, rfl, rfl, rfl, hexp, ?_⟩
  · rw [create_payment_renewal db now req c hcl hc hpaid hexp]
  · intro db₂ now₂ req₂ hmono hcl₂ hc₂
    have hexp₂ : newC.endDate ≤ now₂ := le_trans hexp hmono
    rw [create_payment_renewal db₂ now₂ req₂ newC hcl₂ hc₂ rfl hexp₂]
    refine ⟨rfl, ?_, rfl⟩
    simp

/-- Witness for C10 at a concrete input: the renewal of `dbPartial` at
`now = 20` creates contract 2 with the old window `[0, 10)`, and a payment
attempt against contract 2 at `now = 25` renews again. -/
theorem c10_renewed_contract_renews_again_witness :
    (create_payment dbPartial 20
        (.installments ⟨1, .individual "A", 100⟩)).1.contracts
      = dbPartial.contracts ++
        [⟨2, 1000, 1, .individual "A", 0, 10, 1, false, false, false⟩] ∧
    (create_payment
        (create_payment dbPartial 20
          (.installments ⟨1, .individual "A", 100⟩)).1 25
        (.installments ⟨2, .individual "A", 50⟩)).2 = .created renewalMsg ∧
    ((create_payment
        (create_payment dbPartial 20
          (.installments ⟨1, .individual "A", 100⟩)).1 25
        (.installments ⟨2, .individual "A", 50⟩)).1.contracts.map
        (fun x => x.isPaid))
      = ((create_payment dbPartial 20
          (.installments ⟨1, .individual "A", 100⟩)).1.contracts.map
          (fun x => x.isPaid)) ++ [false] ∧
    (create_payment
        (create_payment dbPartial 20
          (.installments ⟨1, .individual "A", 100⟩)).1 25
        (.installments ⟨2, .individual "A", 50⟩)).1.payments
      = (create_payment dbPartial 20
          (.installments ⟨1, .individual "A", 100⟩)).1.payments ++
        [⟨2, check_outstanding_payments
            (create_payment dbPartial 20
              (.installments ⟨1, .individual "A", 100⟩)).1 2 * (-1),
          false⟩] := by
  have h := c10_renewed_contract_renews_again dbPartial 20
    (.installments ⟨1, .individual "A", 100⟩)
    ⟨1, 1000, 1, .individual "A", 0, 10, 1, false, false, false⟩
    (by decide) (by decide) (by decide) (by decide)
  exact ⟨h.1, h.2.2.2.2.2
    (create_payment dbPartial 20
      (.installments ⟨1, .individual "A", 100⟩)).1 25
    (.installments ⟨2, .individual "A", 50⟩)
    (by decide) (by decide) (by decide)⟩

/-- C4: for every contract the sum of its recorded payment amounts is at
most its price, and every `create_payment` operation — installment, single
payment, rejection, or renewal — preserves the invariant `DbInv` (the
inductive strengthening of I4), so the bound holds along every sequence of
payment operations from a state satisfying `DbInv` (e.g. any state of
freshly created contracts with empty ledgers and non-negative prices).
The code never marks a superseded contract deleted, and the renewal refund
balances the old ledger to zero, so the bound holds for renewed-away
contracts as well. -/
theorem c4_ledger_sum_le_price (db : Db) (h : DbInv db) :
    (∀ c ∈ db.contracts, check_outstanding_payments db c.id ≤ c.price) ∧
    (∀ p ∈ db.payments, p.isDeleted = false) ∧
    ∀ (now : Int) (req : PaymentRequest),
      DbInv (create_payment db now req).1 := by
  refine ⟨fun c hc => (h.1 c hc).2.2.1, h.2.2.1, ?_⟩
  intro now req
  cases hcl : check_if_client_exists db (requestClient req) with
  | false =>
    rw [create_payment_no_client db now req hcl]
    exact h
  | true =>
    cases hgc : get_contract_by_id db (requestClient req)
        (requestContract req) with
    | none =>
      rw [create_payment_no_contract db now req hcl hgc]
      exact h
    | some c =>
      obtain ⟨hcmem, hcid, hccl, -⟩ := get_contract_by_id_eq_some hgc
      cases hpaid : c.isPaid with
      | true =>
        rw [create_payment_already_paid db now req c hcl hgc hpaid]
        exact h
      | false =>
        by_cases hexp : c.endDate ≤ now
        · rw [create_payment_renewal db now req c hcl hgc hpaid hexp]
          have target := DbInv_renewal (requestClient req) h hcmem hpaid
          rw [hcid] at target
          exact target
        · cases req with
          | installments p =>
            simp only [requestClient, requestContract] at hcl hgc hcid hccl
            rw [create_payment_installments_eq db now p c hcl hgc hpaid hexp]
            have hs0 : check_outstanding_payments db c.id ≤ 0 :=
              (h.1 c hcmem).2.2.2 hpaid
            have hp0 : 0 ≤ c.price := (h.1 c hcmem).1
            rw [hcid] at hs0
            by_cases hrej :
                check_outstanding_payments db p.contractId < p.amount
            · rw [if_pos hrej]
              exact h
            · rw [if_neg hrej]
              push_neg at hrej
              by_cases hfull :
                  p.amount = check_outstanding_payments db p.contractId
              · rw [if_pos hfull]
                have harith :
                    check_outstanding_payments db c.id + p.amount
                      ≤ c.price := by
                  rw [hcid]
                  linarith
                have target := DbInv_record_mark h hcmem harith
                rw [hcid, hccl] at target
                exact target
              · rw [if_neg hfull]
                have harith :
                    check_outstanding_payments db c.id + p.amount ≤ 0 := by
                  rw [hcid]
                  linarith
                have target := DbInv_record h hcmem harith
                rw [hcid] at target
                exact target
          | singlePayment p =>
            simp only [requestClient, requestContract] at hcl hgc hcid hccl
            rw [create_payment_single_eq db now p c hcl hgc hpaid hexp]
            have hs0 : check_outstanding_payments db c.id ≤ 0 :=
              (h.1 c hcmem).2.2.2 hpaid
            by_cases hne : p.amount ≠ c.price
            · rw [if_pos hne]
              exact h
            · rw [if_neg hne]
              push_neg at hne
              have harith :
                  check_outstanding_payments db c.id + p.amount
                    ≤ c.price := by
                rw [hne]
                linarith
              have target := DbInv_record_mark h hcmem harith
              rw [hcid, hccl] at target
              exact target

/-- Witness for C4 at a concrete input: the invariant holds for `dbFresh`
and is preserved by a concrete payment operation. -/
theorem c4_ledger_sum_le_price_witness :
    (∀ c ∈ dbFresh.contracts,
      check_outstanding_payments dbFresh c.id ≤ c.price) ∧
    (∀ p ∈ dbFresh.payments, p.isDeleted = false) ∧
    ∀ (now : Int) (req : PaymentRequest),
      DbInv (create_payment dbFresh now req).1 :=
  c4_ledger_sum_le_price dbFresh (by unfold DbInv; decide)

end Untergang
